import Mathlib

/-!
Verification of the istperm/serial library (cross-platform serial-port I/O).

Shallow embedding of the platform-configuration translation, the buffered
hex trace logger, and the read/write paths, translated from the Go source.
Go durations (`time.Duration`, int64 nanoseconds) are embedded as `Nat`:
every property below concerns non-negative durations, and Go's integer
division truncates toward zero, which on non-negative operands is exactly
`Nat` division.  Go's unsigned conversions `uint8`/`uint32` are embedded as
`% 2 ^ 8` / `% 2 ^ 32`.  Go strings that only serve as diagnostic labels
are embedded as enumerated tokens.
-/

namespace Serial

/-- Embedding of `posixTimeoutValues` from `src/serial_nix.go` (lines 17-38).
Input: the read timeout in nanoseconds.  Output: the `(vmin, vtime)` pair
installed into the termios `Cc` array.  The source initialises
`vmin = 1, vtime = 0` and overwrites both when `readTimeout > 0`:
`vt := readTimeout.Nanoseconds() / 1e6 / 100`, then clamps into `[1, 255]`;
the `uint8(vt)` conversion in the final branch is `% 2 ^ 8`. -/
def posixTimeoutValues (readTimeout : Nat) : Nat × Nat :=
  if readTimeout > 0 then
    let vt := readTimeout / 1000000 / 100
    (0, if vt < 1 then 1 else if vt > 255 then 255 else vt % 256)
  else
    (1, 0)

/-- Embedding of the second `posixTimeoutValues` variant, from
`src/serial.go` (lines 172-192).  Same computation, but the clamp is done
on an `int64` (`MAXUINT8 = 1<<8 - 1`) and the `uint8` conversion is applied
to the already-clamped value. -/
def posixTimeoutValuesMain (readTimeout : Nat) : Nat × Nat :=
  if readTimeout > 0 then
    let r0 := readTimeout / 1000000 / 100
    let r1 := if r0 < 1 then 1 else if r0 > 255 then 255 else r0
    (0, r1 % 256)
  else
    (1, 0)

/-- The Windows `COMMTIMEOUTS` structure (`structTimeouts` in
`src/serial_windows.go` lines 37-43 and `src/unnamed/part_001` lines 32-38);
all five fields are `uint32`. -/
structure structTimeouts where
  ReadIntervalTimeout : Nat
  ReadTotalTimeoutMultiplier : Nat
  ReadTotalTimeoutConstant : Nat
  WriteTotalTimeoutMultiplier : Nat
  WriteTotalTimeoutConstant : Nat
deriving DecidableEq, Repr

/-- MAXDWORD, as in the source: `1<<32 - 1`. -/
def MAXDWORD : Nat := 2 ^ 32 - 1

/-- Embedding of `setCommTimeouts` from `src/serial_windows.go`
(lines 298-347) and `src/unnamed/part_001` (lines 281-330): the
`structTimeouts` value the function installs through the
`SetCommTimeouts` syscall (the syscall itself and its error return are
outside the model).  The write-direction fields keep Go's zero value.
`uint32(timeoutMs)` is `% 2 ^ 32`. -/
def setCommTimeouts (readTimeout : Nat) : structTimeouts :=
  if readTimeout > 0 then
    let t0 := readTimeout / 1000000
    let timeoutMs := if t0 < 1 then 1 else if t0 > MAXDWORD then MAXDWORD else t0
    { ReadIntervalTimeout := 0
      ReadTotalTimeoutMultiplier := 0
      ReadTotalTimeoutConstant := timeoutMs % 2 ^ 32
      WriteTotalTimeoutMultiplier := 0
      WriteTotalTimeoutConstant := 0 }
  else
    { ReadIntervalTimeout := MAXDWORD
      ReadTotalTimeoutMultiplier := MAXDWORD
      ReadTotalTimeoutConstant := MAXDWORD - 1
      WriteTotalTimeoutMultiplier := 0
      WriteTotalTimeoutConstant := 0 }

/-- The `bauds` lookup of `openPort` (`src/serial_linux.go` lines 17-48 and
the historical variant at `src/serial_windows.go` lines 434-465): a Go map
from requested baud rate to the Linux `syscall.B*` termios constant; a Go
map lookup yields the zero value `0` for an absent key. -/
def bauds : Nat → Nat
  | 50 => 1
  | 75 => 2
  | 110 => 3
  | 134 => 4
  | 150 => 5
  | 200 => 6
  | 300 => 7
  | 600 => 8
  | 1200 => 9
  | 1800 => 10
  | 2400 => 11
  | 4800 => 12
  | 9600 => 13
  | 19200 => 14
  | 38400 => 15
  | 57600 => 4097
  | 115200 => 4098
  | 230400 => 4099
  | 460800 => 4100
  | 500000 => 4101
  | 576000 => 4102
  | 921600 => 4103
  | 1000000 => 4104
  | 1152000 => 4105
  | 1500000 => 4106
  | 2000000 => 4107
  | 2500000 => 4108
  | 3000000 => 4109
  | 3500000 => 4110
  | 4000000 => 4111
  | _ => 0

/-- Diagnostic message token: the Go string literal passed to `SerialError.Msg`
or as a `logMsg` tag, embedded as an enumerated token. -/
inductive MsgTok where
  | invalidBaudRate
  | readTag
  | writeTag
deriving DecidableEq, Repr

/-- Embedding of `SerialError` (`src/serial.go` lines 235-239): tag, message
and code of the library's own error type (the `Error()` string rendering is
outside the model). -/
structure SerialError where
  Tag : Option MsgTok
  Msg : MsgTok
  Cod : Nat
deriving DecidableEq, Repr

/-- An error returned by `openPort`: the library's `SerialError`, an
`os.OpenFile` error, or a raw `errno` from an ioctl / fcntl. -/
inductive OpenErr where
  | serialErr (e : SerialError)
  | osErr (code : Nat)
  | errno (code : Nat)
deriving DecidableEq, Repr

/-- Outcomes of the system calls `openPort` performs, supplied as an
environment: the device open, the TCGETS and TCSETS ioctls, and
`SetNonblock`.  `0` stands for a successful errno. -/
structure SysEnv where
  openFileErr : Option Nat
  tcgetsErrno : Nat
  tcsetsErrno : Nat
  setNonblockErr : Option Nat

/-- Embedding of `Config` (`src/serial.go` lines 211-225); the device name
is abstracted to a numeric identifier, the log file is outside the open
path modelled here. -/
structure Config where
  Name : Nat
  Baud : Nat
  ReadTimeout : Nat
  StopBits : Nat
deriving DecidableEq, Repr

/-- Embedding of `openPort` from `src/serial_linux.go` (lines 16-118):
result is `(port?, error?)` paired with a flag recording whether the device
descriptor was created (`os.OpenFile` succeeded).  The termios flag
mutations between the ioctls carry no control flow and are elided; the
returned port value is abstracted to `()`.  The baud lookup happens first:
`rate := bauds[c.Baud]; if rate == 0` the function returns the
`SerialError` with message `Invalid baud rate` and code `c.Baud` before
`os.OpenFile` is ever called. -/
def openPortLinux (c : Config) (env : SysEnv) : (Option Unit × Option OpenErr) × Bool :=
  if bauds c.Baud = 0 then
    ((none, some (OpenErr.serialErr ⟨none, MsgTok.invalidBaudRate, c.Baud⟩)), false)
  else
    match env.openFileErr with
    | some e => ((none, some (OpenErr.osErr e)), false)
    | none =>
      if env.tcgetsErrno ≠ 0 then ((none, some (OpenErr.errno env.tcgetsErrno)), true)
      else if env.tcsetsErrno ≠ 0 then ((none, some (OpenErr.errno env.tcsetsErrno)), true)
      else
        match env.setNonblockErr with
        | some e => ((none, some (OpenErr.osErr e)), true)
        | none => ((some (), none), true)

/-- Embedding of the historical `openPort` variant at
`src/serial_windows.go` lines 433-511 (the pre-`Config` Linux backend).
Same shape, except: on an unsupported baud rate the source executes a bare
`return` (lines 469-471), so the named results keep their zero values —
the caller receives `(nil, nil)`: no port and also no error.  This variant
has no TCGETS step (it builds the `Termios` from scratch). -/
def openPortNixOld (_name baud _readTimeout : Nat) (env : SysEnv) :
    (Option Unit × Option OpenErr) × Bool :=
  if bauds baud = 0 then
    ((none, none), false)
  else
    match env.openFileErr with
    | some e => ((none, some (OpenErr.osErr e)), false)
    | none =>
      if env.tcsetsErrno ≠ 0 then ((none, some (OpenErr.errno env.tcsetsErrno)), true)
      else
        match env.setNonblockErr with
        | some e => ((none, some (OpenErr.osErr e)), true)
        | none => ((some (), none), true)

/-- Clamp-shape lemma: the nested conditionals of the POSIX translation
equal the clamp `min 255 (max 1 x)`; the `uint8` conversion is the
identity inside the clamp range. -/
theorem clamp255_eq (x : Nat) :
    (if x < 1 then 1 else if x > 255 then 255 else x % 256) = min 255 (max 1 x) := by
  by_cases h1 : x < 1
  · simp only [if_pos h1]
    omega
  · by_cases h2 : x > 255
    · simp only [if_neg h1, if_pos h2]
      omega
    · simp only [if_neg h1, if_neg h2]
      omega

/-- Clamp-shape lemma for the Windows translation. -/
theorem clampMaxdword_eq (x : Nat) :
    ((if x < 1 then 1 else if x > MAXDWORD then MAXDWORD else x) % 2 ^ 32)
      = min MAXDWORD (max 1 x) := by
  unfold MAXDWORD
  by_cases h1 : x < 1
  · simp only [if_pos h1]
    omega
  · by_cases h2 : x > 2 ^ 32 - 1
    · simp only [if_neg h1, if_pos h2]
      omega
    · simp only [if_neg h1, if_neg h2]
      omega

/-- C1: for `d = 0` the POSIX translation returns `(vmin, vtime) = (1, 0)`;
for every `d > 0` (written `d + 1`) it returns `vmin = 0` and
`vtime = min 255 (max 1 (d / 100000000))` — the duration divided by 100ms
with truncation toward zero, clamped into `[1, 255]` — so `1 ≤ vtime ≤ 255`
holds for every positive duration.  Both source variants
(`serial_nix.go` and `serial.go`) agree. -/
theorem posixTimeoutValues_spec :
    posixTimeoutValues 0 = (1, 0) ∧
    (∀ d : Nat, posixTimeoutValues (d + 1) =
      (0, min 255 (max 1 ((d + 1) / 100000000)))) ∧
    (∀ d : Nat, 1 ≤ (posixTimeoutValues (d + 1)).2 ∧
      (posixTimeoutValues (d + 1)).2 ≤ 255) ∧
    (∀ d : Nat, posixTimeoutValuesMain d = posixTimeoutValues d) := by
  have key : ∀ d : Nat, posixTimeoutValues (d + 1) =
      (0, min 255 (max 1 ((d + 1) / 100000000))) := by
    intro d
    unfold posixTimeoutValues
    rw [if_pos (Nat.succ_pos d)]
    show (0, if (d + 1) / 1000000 / 100 < 1 then 1
          else if (d + 1) / 1000000 / 100 > 255 then 255
          else (d + 1) / 1000000 / 100 % 256) = _
    rw [clamp255_eq, Nat.div_div_eq_div_mul]
  refine ⟨rfl, key, ?_, ?_⟩
  · intro d
    rw [key d]
    refine ⟨?_, ?_⟩
    · show 1 ≤ min 255 (max 1 ((d + 1) / 100000000))
      omega
    · show min 255 (max 1 ((d + 1) / 100000000)) ≤ 255
      omega
  · intro d
    unfold posixTimeoutValues posixTimeoutValuesMain
    by_cases h : d > 0
    · rw [if_pos h, if_pos h]
      show (0, (if d / 1000000 / 100 < 1 then 1
            else if d / 1000000 / 100 > 255 then 255
            else d / 1000000 / 100) % 256)
          = (0, if d / 1000000 / 100 < 1 then 1
            else if d / 1000000 / 100 > 255 then 255
            else d / 1000000 / 100 % 256)
      rw [Prod.mk.injEq]
      refine ⟨rfl, ?_⟩
      by_cases h1 : d / 1000000 / 100 < 1
      · rw [if_pos h1, if_pos h1]
      · by_cases h2 : d / 1000000 / 100 > 255
        · rw [if_neg h1, if_neg h1, if_pos h2, if_pos h2]
        · rw [if_neg h1, if_neg h1, if_neg h2, if_neg h2]
    · rw [if_neg h, if_neg h]

/-- C2: for `d = 0` the Windows translation installs the blocking triple
`ReadIntervalTimeout = MAXDWORD`, `ReadTotalTimeoutMultiplier = MAXDWORD`,
`ReadTotalTimeoutConstant = MAXDWORD - 1`; for every `d > 0` (written
`d + 1`) it installs interval `0`, multiplier `0` and constant
`min MAXDWORD (max 1 ((d + 1) / 1000000))` — the duration in milliseconds
clamped into `[1, MAXDWORD]`. -/
theorem setCommTimeouts_spec :
    setCommTimeouts 0 =
      { ReadIntervalTimeout := MAXDWORD
        ReadTotalTimeoutMultiplier := MAXDWORD
        ReadTotalTimeoutConstant := MAXDWORD - 1
        WriteTotalTimeoutMultiplier := 0
        WriteTotalTimeoutConstant := 0 } ∧
    ∀ d : Nat, setCommTimeouts (d + 1) =
      { ReadIntervalTimeout := 0
        ReadTotalTimeoutMultiplier := 0
        ReadTotalTimeoutConstant := min MAXDWORD (max 1 ((d + 1) / 1000000))
        WriteTotalTimeoutMultiplier := 0
        WriteTotalTimeoutConstant := 0 } := by
  constructor
  · rfl
  · intro d
    unfold setCommTimeouts
    rw [if_pos (Nat.succ_pos d)]
    simp only [structTimeouts.mk.injEq, true_and, and_true]
    rw [clampMaxdword_eq]

/-- C3 counterexample: opening with `read_timeout = 250ms` does NOT yield
the POSIX pair `(0, 3)` claimed by the spec scenario. -/
theorem posixTimeoutValues_250ms_ne : posixTimeoutValues 250000000 ≠ (0, 3) := by
  decide

/-- C3 amended: `250ms = 250000000ns` divides to `2.5` deciseconds, which
Go truncates toward zero to `2`; the clamp floor of `1` does not apply, so
the translation yields `(min_bytes, decitimeout) = (0, 2)` — in both source
variants. -/
theorem posixTimeoutValues_250ms :
    posixTimeoutValues 250000000 = (0, 2) ∧
    posixTimeoutValuesMain 250000000 = (0, 2) := by
  constructor
  · decide
  · decide

/-- C4: at the unsupported baud rate `1234` the baud lookup yields `0` and
both open variants return before `os.OpenFile`, so no descriptor is
created — but the historical variant (`src/serial_windows.go` lines
467-471) executes a bare `return`, handing the caller `(nil, nil)`: no
port and also NO error, while the current `src/serial_linux.go` variant
returns the `Invalid baud rate` `SerialError` as the claim requires. -/
theorem openPort_unsupported_baud :
    ∀ (env : SysEnv) (name rt sb : Nat),
      openPortNixOld name 1234 rt env = ((none, none), false) ∧
      openPortLinux ⟨name, 1234, rt, sb⟩ env =
        ((none, some (OpenErr.serialErr ⟨none, MsgTok.invalidBaudRate, 1234⟩)), false) := by
  intro env name rt sb
  exact ⟨rfl, rfl⟩

/-- A line emitted by the trace logger: either a hex/ASCII dump row
(`logger.Printf("%c %s %s", tag, hex, asc)` — the row's display tag and the
bytes whose hex rendering it shows), or a control message emitted by
`logMsg` (only its tag token is modelled). -/
inductive LogEntry where
  | row (tag : Nat) (bytes : List Nat)
  | msg (tag : MsgTok)
deriving DecidableEq, Repr

/-- Embedding of `BasePort` (`src/serial.go` lines 227-233): whether a
logger is attached (`logger != nil`), the current direction tag (a rune,
`0` initially), the live prefix of the 128-byte `logBuf` array (the bytes
at indices `0 ≤ i < logPtr`), and the lines written to the log so far. -/
structure BasePort where
  logger : Bool
  logTag : Nat
  logBuf : List Nat
  out : List LogEntry
deriving DecidableEq, Repr

/-- The display tag used by `logFlush`: a zero tag prints as a space
(code 32). -/
def dispTag (t : Nat) : Nat := if t = 0 then 32 else t

/-- Fuel-indexed chunking helper for `toRows`; the fuel is instantiated
with the list length, which bounds the number of 16-byte chunks. -/
def toRowsAux : Nat → List Nat → List (List Nat)
  | _, [] => []
  | 0, _ :: _ => []
  | n + 1, a :: as => ((a :: as).take 16) :: toRowsAux n ((a :: as).drop 16)

/-- The 16-byte rows `logFlush` cuts the buffered bytes into: the source
emits a `Printf` row whenever `i % 16 == 0` with a non-empty builder, and a
final row for the remainder. -/
def toRows (l : List Nat) : List (List Nat) := toRowsAux l.length l

/-- Embedding of `BasePort.logFlush` (`src/serial.go` lines 301-327): with a
logger attached and a non-empty buffer, append one row per 16-byte chunk of
the buffered bytes, tagged with the display tag; in every case reset the
fill pointer (`p.logPtr = 0`). -/
def logFlushFn (p : BasePort) : BasePort :=
  { p with
    out := if p.logger ∧ p.logBuf ≠ [] then
        p.out ++ (toRows p.logBuf).map (LogEntry.row (dispTag p.logTag))
      else p.out
    logBuf := [] }

/-- One iteration of the append loop of `BasePort.logData` (`src/serial.go`
lines 292-298): if the buffer is full (`logPtr >= len(logBuf)`, capacity
128), flush first; then store the byte and advance the pointer. -/
def logPush (p : BasePort) (b : Nat) : BasePort :=
  if p.logBuf.length ≥ 128 then
    { logFlushFn p with logBuf := (logFlushFn p).logBuf ++ [b] }
  else
    { p with logBuf := p.logBuf ++ [b] }

/-- Embedding of `BasePort.logData` (`src/serial.go` lines 284-299): no-op
without a logger; if the tag differs from the buffer's current tag, flush
(under the old tag) and adopt the new tag; then append the bytes one by
one, flushing whenever the buffer fills. -/
def logDataFn (tag : Nat) (data : List Nat) (p : BasePort) : BasePort :=
  if p.logger then
    data.foldl logPush
      (if tag ≠ p.logTag then { logFlushFn p with logTag := tag } else p)
  else p

/-- Embedding of `BasePort.logMsg` (`src/serial.go` lines 273-282): no-op
without a logger; otherwise flush pending data first, then write one
message line (only the tag token of the message is modelled). -/
def logMsgFn (tag : MsgTok) (p : BasePort) : BasePort :=
  if p.logger then
    { logFlushFn p with out := (logFlushFn p).out ++ [LogEntry.msg tag] }
  else p

/-- A sequence of `logData` calls with one constant tag, as in the trace
buffer property. -/
def logDataRun (tag : Nat) (ds : List (List Nat)) (p : BasePort) : BasePort :=
  ds.foldl (fun s d => logDataFn tag d s) p

/-- A freshly opened port with an attached logger: zero tag, empty buffer,
nothing written. -/
def port0 : BasePort := { logger := true, logTag := 0, logBuf := [], out := [] }

/-- The bytes shown across a list of log lines, rows only, in order. -/
def outBytes : List LogEntry → List Nat
  | [] => []
  | LogEntry.row _ b :: es => b ++ outBytes es
  | LogEntry.msg _ :: es => outBytes es

theorem toRowsAux_congr : ∀ (n m : Nat) (l : List Nat), l.length ≤ n → l.length ≤ m →
    toRowsAux n l = toRowsAux m l := by
  intro n
  induction n with
  | zero =>
    intro m l hn _
    have : l = [] := List.length_eq_zero.mp (Nat.le_zero.mp hn)
    subst this
    cases m <;> rfl
  | succ n ih =>
    intro m l hn hm
    cases l with
    | nil => cases m <;> rfl
    | cons a as =>
      cases m with
      | zero => simp at hm
      | succ m =>
        show (a :: as).take 16 :: toRowsAux n ((a :: as).drop 16)
            = (a :: as).take 16 :: toRowsAux m ((a :: as).drop 16)
        congr 1
        refine ih m ((a :: as).drop 16) ?_ ?_
        · simp only [List.length_drop, List.length_cons]
          simp only [List.length_cons] at hn
          omega
        · simp only [List.length_drop, List.length_cons]
          simp only [List.length_cons] at hm
          omega

theorem toRows_nil : toRows [] = [] := rfl

theorem toRows_ne (l : List Nat) (h : l ≠ []) :
    toRows l = l.take 16 :: toRows (l.drop 16) := by
  cases l with
  | nil => exact absurd rfl h
  | cons a as =>
    have hlen : ((a :: as).drop 16).length ≤ as.length := by
      simp only [List.length_drop, List.length_cons]
      omega
    show toRowsAux (as.length + 1) (a :: as) = _
    show (a :: as).take 16 :: toRowsAux as.length ((a :: as).drop 16) = _
    rw [toRowsAux_congr as.length ((a :: as).drop 16).length ((a :: as).drop 16) hlen
      (Nat.le_refl _)]
    rfl

theorem toRows_flatten_aux : ∀ (n : Nat) (l : List Nat), l.length ≤ n →
    (toRows l).flatten = l := by
  intro n
  induction n with
  | zero =>
    intro l h
    have : l = [] := List.length_eq_zero.mp (Nat.le_zero.mp h)
    rw [this, toRows_nil]
    rfl
  | succ n ih =>
    intro l h
    by_cases hl : l = []
    · rw [hl, toRows_nil]
      rfl
    · rw [toRows_ne l hl, List.flatten_cons]
      rw [ih (l.drop 16) ?_]
      · exact List.take_append_drop 16 l
      · have h0 : l.length ≠ 0 := fun hz => hl (List.length_eq_zero.mp hz)
        simp only [List.length_drop]
        omega

/-- Concatenating the rows of `toRows` restores the byte list. -/
theorem toRows_flatten (l : List Nat) : (toRows l).flatten = l :=
  toRows_flatten_aux l.length l (Nat.le_refl _)

theorem toRows_length_aux : ∀ (n : Nat) (l : List Nat), l.length ≤ n →
    (toRows l).length = (l.length + 15) / 16 := by
  intro n
  induction n with
  | zero =>
    intro l h
    have : l = [] := List.length_eq_zero.mp (Nat.le_zero.mp h)
    rw [this, toRows_nil]
    rfl
  | succ n ih =>
    intro l h
    by_cases hl : l = []
    · rw [hl, toRows_nil]
      rfl
    · rw [toRows_ne l hl]
      have h0 : l.length ≠ 0 := fun hz => hl (List.length_eq_zero.mp hz)
      rw [List.length_cons, ih (l.drop 16) ?_]
      · simp only [List.length_drop]
        omega
      · simp only [List.length_drop]
        omega

/-- `toRows` cuts a list of length `k` into exactly `⌈k / 16⌉` rows. -/
theorem toRows_length (l : List Nat) : (toRows l).length = (l.length + 15) / 16 :=
  toRows_length_aux l.length l (Nat.le_refl _)

theorem toRows_sixteen_aux : ∀ (n : Nat) (l : List Nat), l.length ≤ n →
    16 ∣ l.length → ∀ r ∈ toRows l, r.length = 16 := by
  intro n
  induction n with
  | zero =>
    intro l h _ r hr
    have : l = [] := List.length_eq_zero.mp (Nat.le_zero.mp h)
    rw [this, toRows_nil] at hr
    exact absurd hr (List.not_mem_nil r)
  | succ n ih =>
    intro l h hdvd r hr
    by_cases hl : l = []
    · rw [hl, toRows_nil] at hr
      exact absurd hr (List.not_mem_nil r)
    · rw [toRows_ne l hl] at hr
      have h0 : l.length ≠ 0 := fun hz => hl (List.length_eq_zero.mp hz)
      have h16 : 16 ≤ l.length := Nat.le_of_dvd (Nat.pos_of_ne_zero h0) hdvd
      rcases List.mem_cons.mp hr with hr | hr
      · rw [hr, List.length_take]
        omega
      · refine ih (l.drop 16) ?_ ?_ r hr
        · simp only [List.length_drop]
          omega
        · simp only [List.length_drop]
          exact (Nat.dvd_sub' hdvd (Nat.dvd_refl 16))

/-- When the flushed buffer holds a multiple of 16 bytes, every emitted row
holds exactly 16 bytes. -/
theorem toRows_sixteen (l : List Nat) (h : 16 ∣ l.length) :
    ∀ r ∈ toRows l, r.length = 16 :=
  toRows_sixteen_aux l.length l (Nat.le_refl _) h

theorem outBytes_append (a b : List LogEntry) :
    outBytes (a ++ b) = outBytes a ++ outBytes b := by
  induction a with
  | nil => rfl
  | cons e es ih =>
    cases e with
    | row t bs => simp [outBytes, ih, List.append_assoc]
    | msg t => simp [outBytes, ih]

theorem outBytes_map_row (rs : List (List Nat)) (t : Nat) :
    outBytes (rs.map (LogEntry.row t)) = rs.flatten := by
  induction rs with
  | nil => rfl
  | cons r rs ih => simp [outBytes, ih]

theorem outBytes_length_16 (l : List LogEntry)
    (h : ∀ e ∈ l, ∃ tg b, e = LogEntry.row tg b ∧ b.length = 16) :
    (outBytes l).length = 16 * l.length := by
  induction l with
  | nil => rfl
  | cons e es ih =>
    obtain ⟨tg, b, he, hb⟩ := h e (List.mem_cons_self e es)
    rw [he]
    simp only [outBytes, List.length_append, List.length_cons]
    rw [ih (fun x hx => h x (List.mem_cons_of_mem e hx)), hb]
    ring

/-- `logFlush` on a port with a logger: the buffer's rows are appended
under the display tag and the buffer empties; tag and logger are kept. -/
theorem logFlushFn_out (p : BasePort) (h : p.logger = true) :
    logFlushFn p =
      { logger := true, logTag := p.logTag, logBuf := []
        out := p.out ++ (toRows p.logBuf).map (LogEntry.row (dispTag p.logTag)) } := by
  unfold logFlushFn
  by_cases hb : p.logBuf = []
  · simp only [h, hb, ne_eq, not_true_eq_false, and_false, if_false, toRows_nil,
      List.map_nil, List.append_nil]
  · simp only [h, hb, ne_eq, not_false_eq_true, and_true, if_true, true_and]

/-- One `logPush` step, from a state with a logger and a buffer within
capacity: the tag and logger are unchanged, the buffer stays within
capacity, and the rows emitted by the step (none, or the eight full
16-byte rows of a full buffer) followed by the new buffer carry the old
buffer plus the pushed byte. -/
theorem logPush_spec (p : BasePort) (b : Nat) (h1 : p.logger = true)
    (h2 : p.logBuf.length ≤ 128) :
    (logPush p b).logger = true ∧
    (logPush p b).logTag = p.logTag ∧
    (logPush p b).logBuf.length ≤ 128 ∧
    ∃ new, (logPush p b).out = p.out ++ new ∧
      (∀ e ∈ new, ∃ bs, e = LogEntry.row (dispTag p.logTag) bs ∧ bs.length = 16) ∧
      outBytes new ++ (logPush p b).logBuf = p.logBuf ++ [b] := by
  unfold logPush
  by_cases hf : p.logBuf.length ≥ 128
  · have h128 : p.logBuf.length = 128 := Nat.le_antisymm h2 hf
    have hdvd : 16 ∣ p.logBuf.length := by
      rw [h128]
      exact ⟨8, rfl⟩
    rw [if_pos hf, logFlushFn_out p h1]
    refine ⟨rfl, rfl, by simp, (toRows p.logBuf).map (LogEntry.row (dispTag p.logTag)),
      rfl, ?_, ?_⟩
    · intro e he
      obtain ⟨r, hr, hre⟩ := List.mem_map.mp he
      exact ⟨r, hre.symm, toRows_sixteen p.logBuf hdvd r hr⟩
    · rw [outBytes_map_row, toRows_flatten]
      rfl
  · rw [if_neg hf]
    refine ⟨h1, rfl, ?_, [], by simp, by simp, by simp [outBytes]⟩
    simp only [List.length_append, List.length_cons, List.length_nil]
    omega

/-- The byte-append loop of `logData` (a `foldl` of `logPush`): logger and
tag survive, the buffer stays within capacity, and the emitted rows — all
full 16-byte rows under the current display tag — followed by the final
buffer carry the initial buffer plus all the pushed bytes. -/
theorem foldl_logPush_spec : ∀ (d : List Nat) (p : BasePort), p.logger = true →
    p.logBuf.length ≤ 128 →
    (d.foldl logPush p).logger = true ∧
    (d.foldl logPush p).logTag = p.logTag ∧
    (d.foldl logPush p).logBuf.length ≤ 128 ∧
    ∃ new, (d.foldl logPush p).out = p.out ++ new ∧
      (∀ e ∈ new, ∃ bs, e = LogEntry.row (dispTag p.logTag) bs ∧ bs.length = 16) ∧
      outBytes new ++ (d.foldl logPush p).logBuf = p.logBuf ++ d := by
  intro d
  induction d with
  | nil =>
    intro p h1 h2
    exact ⟨h1, rfl, h2, [], by simp, by simp, by simp [outBytes]⟩
  | cons b d ih =>
    intro p h1 h2
    rw [List.foldl_cons]
    obtain ⟨q1, q2, q3, new0, hout0, hrows0, hbytes0⟩ := logPush_spec p b h1 h2
    obtain ⟨r1, r2, r3, new1, hout1, hrows1, hbytes1⟩ := ih (logPush p b) q1 q3
    refine ⟨r1, r2.trans q2, r3, new0 ++ new1, ?_, ?_, ?_⟩
    · rw [hout1, hout0, List.append_assoc]
    · intro e he
      rcases List.mem_append.mp he with he | he
      · exact hrows0 e he
      · obtain ⟨bs, hbs, hlen⟩ := hrows1 e he
        exact ⟨bs, by rw [hbs, q2], hlen⟩
    · rw [outBytes_append, List.append_assoc, hbytes1, ← List.append_assoc, hbytes0,
        List.append_assoc, List.singleton_append]

/-- One `logData` call with a logger attached, from a state whose tag
already matches or whose buffer is empty (so the tag-switch flush emits
nothing): the state adopts the tag, the buffer stays within capacity, and
the rows emitted — all full 16-byte rows under the call's display tag —
followed by the final buffer carry the initial buffer plus the call's
bytes. -/
theorem logDataFn_spec (tag : Nat) (d : List Nat) (p : BasePort)
    (h1 : p.logger = true) (h2 : p.logBuf.length ≤ 128)
    (h3 : p.logTag = tag ∨ p.logBuf = []) :
    (logDataFn tag d p).logger = true ∧
    (logDataFn tag d p).logTag = tag ∧
    (logDataFn tag d p).logBuf.length ≤ 128 ∧
    ∃ new, (logDataFn tag d p).out = p.out ++ new ∧
      (∀ e ∈ new, ∃ bs, e = LogEntry.row (dispTag tag) bs ∧ bs.length = 16) ∧
      outBytes new ++ (logDataFn tag d p).logBuf = p.logBuf ++ d := by
  unfold logDataFn
  rw [if_pos h1]
  by_cases ht : tag ≠ p.logTag
  · have hb : p.logBuf = [] := by
      rcases h3 with h3 | h3
      · exact absurd h3.symm ht
      · exact h3
    rw [if_pos ht, logFlushFn_out p h1, hb, toRows_nil]
    simp only [List.map_nil, List.append_nil]
    obtain ⟨r1, r2, r3, new, hout, hrows, hbytes⟩ :=
      foldl_logPush_spec d ⟨true, tag, [], p.out⟩ rfl (by simp)
    exact ⟨r1, r2, r3, new, hout, hrows, hbytes⟩
  · rw [if_neg ht]
    have hteq : p.logTag = tag := (not_ne_iff.mp ht).symm
    obtain ⟨r1, r2, r3, new, hout, hrows, hbytes⟩ := foldl_logPush_spec d p h1 h2
    rw [hteq] at r2 hrows
    exact ⟨r1, r2, r3, new, hout, hrows, hbytes⟩

/-- A run of `logData` calls under one constant tag: logger survives, the
buffer stays within capacity, the state's tag matches the run's tag (or
nothing happened and the buffer is still empty), and the emitted rows —
all full 16-byte rows — followed by the final buffer carry the initial
buffer plus all the logged bytes. -/
theorem logDataRun_spec (tag : Nat) : ∀ (ds : List (List Nat)) (p : BasePort),
    p.logger = true → p.logBuf.length ≤ 128 → (p.logTag = tag ∨ p.logBuf = []) →
    (logDataRun tag ds p).logger = true ∧
    ((logDataRun tag ds p).logTag = tag ∨ (logDataRun tag ds p).logBuf = []) ∧
    (logDataRun tag ds p).logBuf.length ≤ 128 ∧
    ∃ new, (logDataRun tag ds p).out = p.out ++ new ∧
      (∀ e ∈ new, ∃ bs, e = LogEntry.row (dispTag tag) bs ∧ bs.length = 16) ∧
      outBytes new ++ (logDataRun tag ds p).logBuf = p.logBuf ++ ds.flatten := by
  intro ds
  induction ds with
  | nil =>
    intro p h1 h2 h3
    refine ⟨h1, h3.imp id id, h2, [], ?_, by simp, ?_⟩
    · show p.out = p.out ++ ([] : List LogEntry)
      simp
    · show outBytes [] ++ p.logBuf = p.logBuf ++ List.flatten []
      simp [outBytes]
  | cons d ds ih =>
    intro p h1 h2 h3
    have hstep : logDataRun tag (d :: ds) p = logDataRun tag ds (logDataFn tag d p) := rfl
    rw [hstep]
    obtain ⟨q1, q2, q3, new0, hout0, hrows0, hbytes0⟩ := logDataFn_spec tag d p h1 h2 h3
    obtain ⟨r1, r2, r3, new1, hout1, hrows1, hbytes1⟩ :=
      ih (logDataFn tag d p) q1 q3 (Or.inl q2)
    refine ⟨r1, r2, r3, new0 ++ new1, ?_, ?_, ?_⟩
    · rw [hout1, hout0, List.append_assoc]
    · intro e he
      rcases List.mem_append.mp he with he | he
      · exact hrows0 e he
      · exact hrows1 e he
    · rw [outBytes_append, List.append_assoc, hbytes1, ← List.append_assoc, hbytes0,
        List.append_assoc, List.flatten_cons]

/-- C5: starting from a fresh port with an attached logger, any sequence of
`logData` calls under one constant tag totalling `k` bytes, followed by a
final flush, emits exactly `⌈k / 16⌉` rows, and the bytes of the emitted
rows, concatenated in order, reproduce the logged byte sequence. -/
theorem logData_rows_exact (tag t0 : Nat) (ds : List (List Nat)) :
    (logFlushFn (logDataRun tag ds
        { logger := true, logTag := t0, logBuf := [], out := [] })).out.length
      = (ds.flatten.length + 15) / 16 ∧
    outBytes (logFlushFn (logDataRun tag ds
        { logger := true, logTag := t0, logBuf := [], out := [] })).out
      = ds.flatten := by
  obtain ⟨h1, _h2, _h3, new, hout, hrows, hbytes⟩ :=
    logDataRun_spec tag ds ⟨true, t0, [], []⟩ rfl (by simp) (Or.inr rfl)
  rw [logFlushFn_out _ h1]
  simp only [List.nil_append] at hout hbytes
  have hlen16 : (outBytes new).length = 16 * new.length :=
    outBytes_length_16 new (fun e he => by
      obtain ⟨bs, hbs, hl⟩ := hrows e he
      exact ⟨dispTag tag, bs, hbs, hl⟩)
  have hk : (outBytes new).length
      + (logDataRun tag ds ⟨true, t0, [], []⟩).logBuf.length = ds.flatten.length := by
    rw [← List.length_append, hbytes]
  constructor
  · rw [hout]
    simp only [List.length_append, List.length_map, toRows_length]
    omega
  · rw [hout, outBytes_append, outBytes_map_row, toRows_flatten, hbytes]

/-- All pushes fit: when the buffered bytes plus the appended data stay
within the 128-byte capacity, the append loop only fills the buffer and
emits nothing. -/
theorem foldl_logPush_small : ∀ (d : List Nat) (p : BasePort),
    p.logBuf.length + d.length ≤ 128 →
    d.foldl logPush p = { p with logBuf := p.logBuf ++ d } := by
  intro d
  induction d with
  | nil =>
    intro p _
    simp
  | cons b d ih =>
    intro p h
    rw [List.foldl_cons]
    have hlt : ¬ p.logBuf.length ≥ 128 := by
      simp only [List.length_cons] at h
      omega
    have hpush : logPush p b = { p with logBuf := p.logBuf ++ [b] } := by
      unfold logPush
      rw [if_neg hlt]
    rw [hpush, ih { p with logBuf := p.logBuf ++ [b] } ?_]
    · simp [List.append_assoc]
    · simp only [List.length_append, List.length_cons, List.length_nil] at h ⊢
      omega

/-- A `logData` call with a logger and a differing tag: the source flushes
under the old tag, adopts the new tag, and only then runs the append
loop. -/
theorem logDataFn_switch (tag : Nat) (d : List Nat) (p : BasePort)
    (h1 : p.logger = true) (ht : tag ≠ p.logTag) :
    logDataFn tag d p = d.foldl logPush
      { logger := true, logTag := tag, logBuf := []
        out := p.out ++ (toRows p.logBuf).map (LogEntry.row (dispTag p.logTag)) } := by
  unfold logDataFn
  rw [if_pos h1, if_pos ht, logFlushFn_out p h1]

/-- C6: a `logData` call whose tag differs from the buffered tag flushes
the buffered bytes first.  From a fresh logging port, `logData('+', A)`
followed by `logData('-', B)` (with `A` and `B` within one buffer) leaves
exactly the `'+'`-tagged rows of `A` — including a partial final row of
fewer than 16 bytes — in the output, while the bytes of `B` sit in the
buffer under the `'-'` tag: the `'+'` row is emitted before any byte of
`B` enters the buffer.  Rune codes: `'+'` = 43, `'-'` = 45. -/
theorem logData_tag_switch (A B : List Nat) (hA : A.length ≤ 128) (hB : B.length ≤ 128) :
    logDataFn 45 B (logDataFn 43 A port0) =
      { logger := true, logTag := 45, logBuf := B
        out := (toRows A).map (LogEntry.row 43) } := by
  have s1 : logDataFn 43 A port0 = { logger := true, logTag := 43, logBuf := A, out := [] } := by
    rw [logDataFn_switch 43 A port0 rfl (by decide)]
    rw [foldl_logPush_small A _ (by simpa using hA)]
    simp [port0, toRows_nil]
  rw [s1]
  rw [logDataFn_switch 45 B { logger := true, logTag := 43, logBuf := A, out := [] }
    rfl ((by decide : (45 : Nat) ≠ 43))]
  rw [foldl_logPush_small B _ (by simpa using hB)]
  simp [dispTag]

/-- C6 witness: the tag-switch theorem applied at `A = [1, 2, 3]`,
`B = [4, 5]` — the three buffered `'+'` bytes come out as one partial row
before the `'-'` bytes are accepted. -/
theorem logData_tag_switch_witness :
    ([1, 2, 3] : List Nat).length ≤ 128 ∧ ([4, 5] : List Nat).length ≤ 128 ∧
    logDataFn 45 [4, 5] (logDataFn 43 [1, 2, 3] port0) =
      { logger := true, logTag := 45, logBuf := [4, 5]
        out := (toRows [1, 2, 3]).map (LogEntry.row 43) } :=
  ⟨by decide, by decide, logData_tag_switch [1, 2, 3] [4, 5] (by decide) (by decide)⟩

/-- Outcome of the underlying `os.File` Read/Write call on the POSIX
backend: no error, `io.EOF`, or another error (with a code). -/
inductive IOErr where
  | eof
  | other (code : Nat)
deriving DecidableEq, Repr

/-- Embedding of `Port.Read` from `src/serial_nix.go` (lines 40-50),
parameterised by the outcome `(n, e)` of the underlying `p.f.Read(buf)`
call; `buf` holds the buffer contents after that call.  An error other
than EOF: log a `Read` message and return `(0, err)`.  At least one byte
transferred: forward the WHOLE buffer `buf` — the source passes `buf`, not
`buf[:n]`, to `logData` — under tag `'+'` (rune 43) and return `(n, nil)`.
Otherwise return `(0, nil)`. -/
def portRead (p : BasePort) (buf : List Nat) (n : Nat) (e : Option IOErr) :
    (Nat × Option IOErr) × BasePort :=
  if e ≠ none ∧ e ≠ some IOErr.eof then
    ((0, e), logMsgFn MsgTok.readTag p)
  else if n > 0 then
    ((n, none), logDataFn 43 buf p)
  else
    ((0, none), p)

/-- Embedding of `Port.Write` from `src/serial_nix.go` (lines 52-60),
parameterised by the outcome `(n, e)` of the underlying `p.f.Write(buf)`:
on error log a `Write` message; otherwise, if at least one byte was
written, forward the whole buffer under tag `'-'` (rune 45); return
`(n, e)` unchanged. -/
def portWrite (p : BasePort) (buf : List Nat) (n : Nat) (e : Option IOErr) :
    (Nat × Option IOErr) × BasePort :=
  if e ≠ none then
    ((n, e), logMsgFn MsgTok.writeTag p)
  else if n > 0 then
    ((n, none), logDataFn 45 buf p)
  else
    ((n, none), p)

/-- A transfer direction of the asynchronous backend; used to name the
per-direction overlapped structure and completion event (`Dir.read` is
`p.ro` and its event, `Dir.write` is `p.wo` and its event). -/
inductive Dir where
  | read
  | write
deriving DecidableEq, Repr

/-- Result of the asynchronous `WriteFile` / `ReadFile` issue step:
immediate success, `ERROR_IO_PENDING`, or a genuine failure code. -/
inductive WfRes where
  | ok
  | pending
  | fail (code : Nat)
deriving DecidableEq, Repr

/-- One API call observed during an asynchronous Read or Write, recording
which direction's overlapped structure or event handle the source passed
to it. -/
inductive WinEv where
  | resetEvent (d : Dir)
  | issueWrite (d : Dir)
  | issueRead (d : Dir)
  | getResult (d : Dir)
deriving DecidableEq, Repr

/-- Outcomes of the syscalls made during one asynchronous Read/Write:
`resetErr` per event handle, the byte count and error `WriteFile` /
`ReadFile` report, and the `(count, error)` that `GetOverlappedResult`
reports for each overlapped structure. -/
structure WinEnv where
  resetErr : Dir → Option Nat
  wfDone : Nat
  wfErr : WfRes
  rfDone : Nat
  rfErr : WfRes
  gor : Dir → Nat × Option Nat

/-- Embedding of `Port.Write` from `src/unnamed/part_001` (lines 100-118):
reset the write event (`p.wo.HEvent`), issue `WriteFile` on the write
overlapped `p.wo` and, unless that reports a genuine failure (an error
other than `ERROR_IO_PENDING`), query the transferred byte count — which
the source does through `getOverlappedResult(p.fd, p.ro)`, the READ
direction's overlapped structure — then log the whole buffer under `'-'`
when that query returns no error.  The result carries the return value,
the port state and the trace of API calls, each with the direction of the
structure it was given. -/
def winWrite (env : WinEnv) (p : BasePort) (buf : List Nat) :
    (Nat × Option Nat) × BasePort × List WinEv :=
  match env.resetErr Dir.write with
  | some c => ((0, some c), p, [WinEv.resetEvent Dir.write])
  | none =>
    match env.wfErr with
    | WfRes.fail c =>
      ((env.wfDone, some c), p, [WinEv.resetEvent Dir.write, WinEv.issueWrite Dir.write])
    | _ =>
      match env.gor Dir.read with
      | (n, none) =>
        ((n, none), logDataFn 45 buf p,
          [WinEv.resetEvent Dir.write, WinEv.issueWrite Dir.write, WinEv.getResult Dir.read])
      | (n, some c) =>
        ((n, some c), p,
          [WinEv.resetEvent Dir.write, WinEv.issueWrite Dir.write, WinEv.getResult Dir.read])

/-- Embedding of `Port.Read` from `src/unnamed/part_001` (lines 120-142):
all three steps use the read direction's structures (`p.ro`); the whole
buffer is logged under `'+'` when the query succeeds with `n > 0`.  The
nil-port guard at the top concerns Go pointer validity and is outside the
model. -/
def winRead (env : WinEnv) (p : BasePort) (buf : List Nat) :
    (Nat × Option Nat) × BasePort × List WinEv :=
  match env.resetErr Dir.read with
  | some c => ((0, some c), p, [WinEv.resetEvent Dir.read])
  | none =>
    match env.rfErr with
    | WfRes.fail c =>
      ((env.rfDone, some c), p, [WinEv.resetEvent Dir.read, WinEv.issueRead Dir.read])
    | _ =>
      match env.gor Dir.read with
      | (n, none) =>
        ((n, none), if n > 0 then logDataFn 43 buf p else p,
          [WinEv.resetEvent Dir.read, WinEv.issueRead Dir.read, WinEv.getResult Dir.read])
      | (n, some c) =>
        ((n, some c), p,
          [WinEv.resetEvent Dir.read, WinEv.issueRead Dir.read, WinEv.getResult Dir.read])

/-- Embedding of `Port.Write` from `src/serial_windows.go` (lines 102-121),
the sibling variant of `winWrite`: all three steps stay on the write
direction's structures (`p.wo`); reset and issue failures are logged as
messages; the whole buffer is logged under `'-'` whenever `n > 0`. -/
def winWriteSW (env : WinEnv) (p : BasePort) (buf : List Nat) :
    (Nat × Option Nat) × BasePort × List WinEv :=
  match env.resetErr Dir.write with
  | some c => ((0, some c), logMsgFn MsgTok.writeTag p, [WinEv.resetEvent Dir.write])
  | none =>
    match env.wfErr with
    | WfRes.fail c =>
      ((env.wfDone, some c), logMsgFn MsgTok.writeTag p,
        [WinEv.resetEvent Dir.write, WinEv.issueWrite Dir.write])
    | _ =>
      match env.gor Dir.write with
      | (n, e) =>
        ((n, e), if n > 0 then logDataFn 45 buf p else p,
          [WinEv.resetEvent Dir.write, WinEv.issueWrite Dir.write, WinEv.getResult Dir.write])

/-- C8: on the POSIX backend a read that ends at end-of-file (underlying
result `(0, io.EOF)`) or by timeout expiry (underlying result `(0, nil)`)
returns the successful zero-byte result `(0, nil)` with the port state
untouched, while any other read failure is returned to the caller as
`(0, err)` after logging a `Read` message. -/
theorem posixRead_eof_timeout :
    ∀ (p : BasePort) (buf : List Nat) (n c : Nat),
      portRead p buf 0 (some IOErr.eof) = ((0, none), p) ∧
      portRead p buf 0 none = ((0, none), p) ∧
      portRead p buf n (some (IOErr.other c)) =
        ((0, some (IOErr.other c)), logMsgFn MsgTok.readTag p) := by
  intro p buf n c
  refine ⟨?_, ?_, ?_⟩ <;> simp [portRead]

/-- C10: whenever the POSIX `Read` returns a non-nil error it returns a
byte count of exactly `0` — it never pairs a positive count with an
error. -/
theorem posixRead_error_zero_count :
    ∀ (p : BasePort) (buf : List Nat) (n : Nat) (e : Option IOErr),
      (portRead p buf n e).1.2 ≠ none → (portRead p buf n e).1.1 = 0 := by
  intro p buf n e h
  unfold portRead at h ⊢
  by_cases h1 : e ≠ none ∧ e ≠ some IOErr.eof
  · rw [if_pos h1]
  · rw [if_neg h1] at h ⊢
    by_cases h2 : n > 0
    · rw [if_pos h2] at h
      exact absurd rfl h
    · rw [if_neg h2]

/-- C10 witness: a failing read (`errno` 7, underlying count 3) indeed
reports an error together with a count of `0`. -/
theorem posixRead_error_zero_count_witness :
    (portRead port0 [5] 3 (some (IOErr.other 7))).1.2 ≠ none ∧
    (portRead port0 [5] 3 (some (IOErr.other 7))).1.1 = 0 :=
  ⟨by decide, posixRead_error_zero_count port0 [5] 3 (some (IOErr.other 7)) (by decide)⟩

/-- C7 counterexample: a POSIX read into the two-byte buffer `[10, 20]`
that transfers only `n = 1` byte forwards BOTH buffer bytes to the trace
logger — the logger's buffer afterwards holds `[10, 20]`, not exactly the
one transferred byte `[10]` the claim prescribes. -/
theorem read_forwards_more_than_n :
    ((portRead port0 [10, 20] 1 none).2).logBuf = [10, 20] ∧
    ((portRead port0 [10, 20] 1 none).2).logBuf ≠ [10] := by
  refine ⟨?_, ?_⟩ <;> decide

/-- C7 amended: a successful POSIX read or write that transfers `n ≥ 1`
bytes forwards the ENTIRE caller buffer — not just the `n` transferred
bytes — to the trace logger before returning, tagged `'+'` (43) for reads
and `'-'` (45) for writes; a POSIX transfer of zero bytes forwards
nothing; and the asynchronous `Write` of `src/unnamed/part_001` forwards
the entire buffer under `'-'` whenever its overlapped query reports
success, whatever the count. -/
theorem transfer_forwards_whole_buffer :
    ∀ (p : BasePort) (buf : List Nat) (n k d0 d1 : Nat),
      portRead p buf (n + 1) none = ((n + 1, none), logDataFn 43 buf p) ∧
      portWrite p buf (n + 1) none = ((n + 1, none), logDataFn 45 buf p) ∧
      portRead p buf 0 none = ((0, none), p) ∧
      portWrite p buf 0 none = ((0, none), p) ∧
      winWrite ⟨fun _ => none, d0, WfRes.pending, d1, WfRes.pending, fun _ => (k, none)⟩
          p buf
        = ((k, none), logDataFn 45 buf p,
            [WinEv.resetEvent Dir.write, WinEv.issueWrite Dir.write,
              WinEv.getResult Dir.read]) := by
  intro p buf n k d0 d1
  refine ⟨?_, ?_, ?_, ?_, rfl⟩ <;> simp [portRead, portWrite]

/-- A concrete environment in which every event reset succeeds, the issue
step reports `ERROR_IO_PENDING`, and each overlapped query reports two
bytes transferred with no error. -/
def envPending : WinEnv :=
  ⟨fun _ => none, 0, WfRes.pending, 0, WfRes.pending, fun _ => (2, none)⟩

/-- C9: the asynchronous `Write` of `src/unnamed/part_001` does not stay on
the write direction's structures: after resetting the write event and
issuing `WriteFile` on `p.wo` it queries the transferred byte count
through `getOverlappedResult(p.fd, p.ro)` — the READ direction's
overlapped structure — as its call trace shows.  The sibling `Write` in
`src/serial_windows.go` keeps all three steps on the write direction, and
the `Read` keeps all three on the read direction, as the claim
requires. -/
theorem winWrite_touches_read_overlapped :
    (winWrite envPending port0 [1, 2]).2.2 =
      [WinEv.resetEvent Dir.write, WinEv.issueWrite Dir.write, WinEv.getResult Dir.read] ∧
    WinEv.getResult Dir.read ∈ (winWrite envPending port0 [1, 2]).2.2 ∧
    (winWriteSW envPending port0 [1, 2]).2.2 =
      [WinEv.resetEvent Dir.write, WinEv.issueWrite Dir.write, WinEv.getResult Dir.write] ∧
    (winRead envPending port0 [1, 2]).2.2 =
      [WinEv.resetEvent Dir.read, WinEv.issueRead Dir.read, WinEv.getResult Dir.read] := by
  refine ⟨rfl, ?_, rfl, rfl⟩
  decide

end Serial
